import Mathlib

set_option maxRecDepth 100000

/-!
Shallow embedding of the Stream Discovery & Alias Reconciliation Engine of
`custom_components/chaturbate_bridge` (files `coordinator.py` and `camera.py`).

Conventions of the embedding:
* Python `str` is `String`; scanning-oriented helpers work on `List Char`
  (structural recursion) so that everything evaluates by `decide`/`rfl`.
* Machine integers in the source are Python arbitrary-precision ints, so `Nat`/`Int`
  are exact.
* Network effects are made explicit: each HTTP interaction is an input value
  (`PollOutcome`, `FetchOutcome`) and each relay control call is an output value
  (`RelayCall`), so a refresh cycle is a pure function from inputs to
  (state, snapshot, call trace).
* Python exceptions that escape the code under analysis are `Except PyError`.
* `urllib.parse.urljoin` is Python standard library (external to the repository);
  it is kept abstract as a `resolve : String → String → String` parameter.
* The wall-clock field `last_changed` (set from `time.time()`) is omitted from the
  model: it is real time, and no claim mentions it.
-/

/-- Python exceptions that can escape the embedded code. -/
inductive PyError where
  /-- `UnboundLocalError`: a local variable read before assignment. -/
  | unboundLocal
  /-- `AttributeError`: e.g. calling `.get` on a non-dict JSON value. -/
  | attributeError
deriving Repr, DecidableEq

/-- `Variant` dataclass from `coordinator.py`. -/
structure Variant where
  bandwidth : Nat
  resolution : String
  url : String
deriving Repr, DecidableEq

/-- `ModelState` dataclass from `coordinator.py` (wall-clock `last_changed` omitted). -/
structure ModelState where
  status : String := "offline"
  url : Option String := none
  title : Option String := none
  viewerCount : Option Int := none
  variants : Option (List Variant) := none
  variantStreamNames : Option (List String) := none
deriving Repr, DecidableEq

/-! ### Character-list scanning helpers (Python `re.search` / `int` / `str.split`) -/

/-- Numeric value of a list of decimal digit characters (most significant first). -/
def digitsToNat (ds : List Char) : Nat :=
  ds.foldl (fun n c => n * 10 + (c.toNat - 48)) 0

/-- If `lit` is a prefix of `s`, return the remainder of `s`, else `none`. -/
def stripLit : List Char → List Char → Option (List Char)
  | [], s => some s
  | _ :: _, [] => none
  | a :: as, b :: bs => if a = b then stripLit as bs else none

/-- Leftmost-match search: find the first position of `s` where the literal `lit`
occurs followed by at least one character satisfying `p`, and return the maximal
run of `p`-characters after the literal.  This is Python `re.search` for patterns
of the shape `LIT([c]+)` (e.g. `BANDWIDTH=([0-9]+)`, `RESOLUTION=([^,]+)`,
and with `lit = []` the leading digit-run pattern `(\d+)` of `_res_to_num`). -/
def runAfterLit (lit : List Char) (p : Char → Bool) : List Char → Option (List Char)
  | [] => none
  | c :: cs =>
    match stripLit lit (c :: cs) with
    | some rest =>
      let run := rest.takeWhile p
      if run.isEmpty then runAfterLit lit p cs else some run
    | none => runAfterLit lit p cs

/-- `_res_to_num` from `coordinator.py`: first embedded run of digits of the
resolution string (the regex `(\d+)p?`, whose group 1 is that digit run),
defaulting to 0 when there is none. -/
def resToNum (res : String) : Nat :=
  match runAfterLit [] Char.isDigit res.data with
  | some run => digitsToNat run
  | none => 0

/-- Python `int(s)` on a string: optional surrounding whitespace, optional sign,
then at least one decimal digit; anything else raises `ValueError` (here `none`). -/
def pyInt (s : String) : Option Int :=
  let t := (s.data.dropWhile Char.isWhitespace).reverse.dropWhile Char.isWhitespace |>.reverse
  let (sign, digits) : Int × List Char :=
    match t with
    | '-' :: rest => (-1, rest)
    | '+' :: rest => (1, rest)
    | _ => (1, t)
  if digits ≠ [] ∧ digits.all Char.isDigit then
    some (sign * (digitsToNat digits : Int))
  else none

/-- Split a character list on a separator character (Python `str.split(sep)`). -/
def splitChar (sep : Char) : List Char → List (List Char)
  | [] => [[]]
  | c :: cs =>
    let rest := splitChar sep cs
    if c = sep then [] :: rest
    else
      match rest with
      | r :: rs => (c :: r) :: rs
      | [] => [[c]]

/-- `_suffix_from_res` from `coordinator.py`: when the resolution contains an
`"x"`, split on it; the unpack `w, h = res.split("x")` succeeds only for exactly
two parts, and `f"{int(h)}p"` requires `h` to parse as an int — any
`TypeError`/`ValueError` yields `None`. -/
def suffixFromRes (res : String) : Option String :=
  match splitChar 'x' res.data with
  | [_] => none
  | [_, h] => (pyInt ⟨h⟩).map (fun n => toString n ++ "p")
  | _ => none

/-! ### Manifest parsing (`_fetch_variants`, lines 145-159) -/

/-- Python `str.strip()`: remove leading and trailing whitespace. -/
def pyStrip (s : String) : String :=
  ⟨(s.data.dropWhile Char.isWhitespace).reverse.dropWhile Char.isWhitespace |>.reverse⟩

/-- `[l.strip() for l in text.splitlines() if l.strip()]`: split on line breaks
(`\n`, with `\r` of a `\r\n` pair removed by the strip), strip each line, and
drop the blank ones. -/
def manifestLines (text : String) : List String :=
  ((splitChar '\n' text.data).map (fun l => pyStrip ⟨l⟩)).filter (fun l => l ≠ "")

/-- Python `str.startswith` (kernel-reducible form over the character list). -/
def startsWithCL (lit : String) (s : String) : Bool :=
  (stripLit lit.data s.data).isSome

/-- Characters after the first `':'` (Python `line.split(":", 1)[1]`, which is
total here because the caller only uses it on lines starting `"#EXT-X-STREAM-INF:"`). -/
def afterFirstColon (s : String) : String :=
  ⟨((s.data.dropWhile (fun c => c ≠ ':')).drop 1)⟩

/-- Bandwidth attribute of a stream-info line: `re.search(r"BANDWIDTH=([0-9]+)", attrs)`,
group 1 as an int, defaulting to 0 when absent. -/
def bandwidthOf (attrs : String) : Nat :=
  match runAfterLit "BANDWIDTH=".data Char.isDigit attrs.data with
  | some run => digitsToNat run
  | none => 0

/-- Resolution attribute of a stream-info line: `re.search(r'RESOLUTION=([^,]+)', attrs)`,
group 1, defaulting to `""` when absent. -/
def resolutionOf (attrs : String) : String :=
  match runAfterLit "RESOLUTION=".data (fun c => c ≠ ',') attrs.data with
  | some run => ⟨run⟩
  | none => ""

/-- The `for i, line in enumerate(lines)` loop of `_fetch_variants`: a line
starting with the stream-info marker contributes a `Variant` built from its
attributes and from `lines[i+1]` — the immediately following (stripped,
non-blank) line — provided that line exists and does not start with `"#"`;
the URL is resolved against the manifest URL (`urljoin`). -/
def parseLines (resolve : String → String → String) (masterUrl : String) :
    List String → List Variant
  | [] => []
  | [_] => []
  | line :: next :: rest =>
    if startsWithCL "#EXT-X-STREAM-INF:" line then
      let attrs := afterFirstColon line
      if startsWithCL "#" next then parseLines resolve masterUrl (next :: rest)
      else
        Variant.mk (bandwidthOf attrs) (resolutionOf attrs) (resolve masterUrl next)
          :: parseLines resolve masterUrl (next :: rest)
    else parseLines resolve masterUrl (next :: rest)

/-- The manifest-parsing phase of `_fetch_variants`: split/strip/filter the body,
then scan for stream-info lines. -/
def parseManifest (resolve : String → String → String) (masterUrl text : String) :
    List Variant :=
  parseLines resolve masterUrl (manifestLines text)

/-! ### Quality selection (`_fetch_variants`, lines 160-165) -/

/-- Comparison used for `preferred_quality == "best"`: Python
`sort(key=lambda v: (-v.bandwidth, -_res_to_num(v.resolution)))`, i.e. the key of
`a` is lexicographically ≤ the key of `b`. -/
def bestLE (a b : Variant) : Bool :=
  decide (b.bandwidth < a.bandwidth) ||
    (decide (a.bandwidth = b.bandwidth) &&
      decide (resToNum b.resolution ≤ resToNum a.resolution))

/-- Distance of a variant's height from the target height (Python
`abs(_res_to_num(v.resolution) - target)`). -/
def targetDist (t : Nat) (v : Variant) : Nat :=
  ((resToNum v.resolution : Int) - (t : Int)).natAbs

/-- Comparison used for a target preference: Python
`sort(key=lambda v: (abs(_res_to_num(v.resolution) - target), -v.bandwidth))`. -/
def targetLE (t : Nat) (a b : Variant) : Bool :=
  decide (targetDist t a < targetDist t b) ||
    (decide (targetDist t a = targetDist t b) &&
      decide (b.bandwidth ≤ a.bandwidth))

/-- Insert into a sorted list, before the first element not `le`-below the new
one.  Elements with equal keys keep their original relative order, which is
exactly the stability guarantee of Python's `list.sort`. -/
def insertSorted (le : α → α → Bool) (a : α) : List α → List α
  | [] => [a]
  | b :: bs => if le a b then a :: b :: bs else b :: insertSorted le a bs

/-- Stable ascending sort by a boolean total preorder; agrees with Python's
stable `list.sort` for the same key. -/
def sortByKey (le : α → α → Bool) : List α → List α
  | [] => []
  | a :: as => insertSorted le a (sortByKey le as)

/-- The sorting phase of `_fetch_variants` (lines 160-165): `"best"` sorts by
descending bandwidth then descending height; any other preference sorts by
distance from the target height then descending bandwidth. -/
def rankVariants (preferredQuality : String) (variants : List Variant) : List Variant :=
  if preferredQuality = "best" then sortByKey bestLE variants
  else sortByKey (targetLE (resToNum preferredQuality)) variants

/-! ### Relay client and the coordinator's per-room refresh step -/

/-- A control call issued to the go2rtc relay: `PUT`-style upsert of a named
stream (`_upsert_go2rtc`) or `DELETE`-style removal (`_cleanup_model_streams`). -/
inductive RelayCall where
  | upsert (name src : String)
  | remove (name : String)
deriving Repr, DecidableEq

instance {e a : Type} [DecidableEq e] [DecidableEq a] : DecidableEq (Except e a)
  | .ok x, .ok y => decidable_of_iff (x = y) (by simp)
  | .ok _, .error _ => isFalse (fun h => Except.noConfusion h)
  | .error _, .ok _ => isFalse (fun h => Except.noConfusion h)
  | .error x, .error y => decidable_of_iff (x = y) (by simp)

/-- Outcome of the manifest HTTP GET inside `_fetch_variants`. -/
inductive FetchOutcome where
  /-- The request completed with this status code and body text. -/
  | ok (status : Nat) (body : String)
  /-- `aiohttp.ClientError` or `asyncio.TimeoutError` was raised. -/
  | netErr
  /-- Some other exception was raised during the request. -/
  | unexpectedErr
deriving Repr, DecidableEq

/-- `_fetch_variants`: on a completed response the body is parsed and ranked
regardless of the HTTP status (a non-200 status is only logged); an unexpected
exception returns `[]`; an `aiohttp.ClientError`/`TimeoutError` is logged but the
handler does not return, so control falls through to `text.splitlines()` with
the local `text` never assigned — an `UnboundLocalError` escapes. -/
def fetchVariants (resolve : String → String → String) (preferredQuality : String)
    (masterUrl : String) (outcome : FetchOutcome) : Except PyError (List Variant) :=
  match outcome with
  | .netErr => .error .unboundLocal
  | .unexpectedErr => .ok []
  | .ok _status body => .ok (rankVariants preferredQuality (parseManifest resolve masterUrl body))

/-- The go2rtc source specification for a variant URL; `_upsert_variants` and
`_upsert_alias_from_variant` build it with identical code, the `Referer` header
pinned to the room's canonical page.  `mode == "plain"` passes the URL with
header directives; any other mode wraps it in an ffmpeg pipeline. -/
def sourceFor (mode model url : String) : String :=
  let ref := "https://chaturbate.com/" ++ model ++ "/"
  if mode = "plain" then
    url ++ "#header=Referer:" ++ ref ++ "#header=User-Agent:Mozilla/5.0"
  else
    "ffmpeg:" ++ url ++ "#video=copy#audio=aac#input=-headers 'Referer: " ++ ref ++
      "\r\nUser-Agent: Mozilla/5.0' -re -i \x7binput\x7d"

/-- Alias name `{model}_{suffix}` for a variant: suffix `{H}p` from the
resolution when parsable, else `{bandwidth // 1000}k`. -/
def variantName (model : String) (v : Variant) : String :=
  model ++ "_" ++ ((suffixFromRes v.resolution).getD (toString (v.bandwidth / 1000) ++ "k"))

/-- `_upsert_variants`: one upsert per variant (in list order, without any
de-duplication of computed names), returning the list of names used. -/
def upsertVariants (mode model : String) (variants : List Variant) :
    List String × List RelayCall :=
  (variants.map (variantName model),
   variants.map (fun v => RelayCall.upsert (variantName model v) (sourceFor mode model v.url)))

/-- Names of the `remove` calls in a relay-call trace. -/
def removesOf (calls : List RelayCall) : List String :=
  calls.filterMap (fun c => match c with | .remove n => some n | .upsert _ _ => none)

/-! ### Room poller (`_fetch_one`) -/

/-- The JSON-object fields that `_fetch_one` reads from the upstream response
with `js.get(...)` (absent keys yield the defaults). -/
structure Payload where
  roomStatus : Option String := none
  url : Option String := none
  title : Option String := none
  viewerCount : Option Int := none
deriving Repr, DecidableEq

/-- Classification of the body of a completed upstream status response. -/
inductive RespBody where
  /-- The body is not JSON: `r.json()` raises and the payload stays `{}`. -/
  | notJson
  /-- The body is a JSON object with these recognized fields. -/
  | jsonObj (p : Payload)
  /-- The body is valid JSON but not an object (e.g. a list). -/
  | jsonNonObj
deriving Repr, DecidableEq

/-- Outcome of the upstream status POST inside `_fetch_one`. -/
inductive PollOutcome where
  /-- The request completed with this status code and body. -/
  | response (status : Nat) (body : RespBody)
  /-- `aiohttp.ClientError` or `asyncio.TimeoutError` was raised. -/
  | netErr
  /-- Some other exception was raised during the request. -/
  | unexpectedErr
deriving Repr, DecidableEq

/-- `_fetch_one`: all transport and parse failures leave the payload `{}` so the
snapshot defaults to `"offline"` with absent optional fields; a non-200 status is
only logged and the body is still parsed and used.  A JSON body that is not an
object survives the in-`try` `r.json()` call, and the later `js.get(...)` —
outside the `try` — raises an uncaught `AttributeError`. -/
def fetchOne (outcome : PollOutcome) : Except PyError ModelState :=
  match outcome with
  | .response _ .jsonNonObj => .error .attributeError
  | .response _ (.jsonObj p) =>
      .ok { status := p.roomStatus.getD "offline"
            url := p.url
            title := p.title
            viewerCount := p.viewerCount }
  | _ => .ok {}

/-! ### Association-list helpers for Python dicts keyed by room name -/

/-- Python `dict.get(k)`. -/
def alGet (m : List (String × α)) (k : String) : Option α :=
  match m with
  | [] => none
  | (k', v) :: rest => if k' = k then some v else alGet rest k

/-- Python `d[k] = v` (overwrite in place, or append a new binding). -/
def alSet (m : List (String × α)) (k : String) (v : α) : List (String × α) :=
  match m with
  | [] => [(k, v)]
  | (k', v') :: rest => if k' = k then (k, v) :: rest else (k', v') :: alSet rest k v

/-- Python `dict.pop(k, None)` restricted to its removal effect. -/
def alRemove (m : List (String × α)) (k : String) : List (String × α) :=
  match m with
  | [] => []
  | (k', v') :: rest => if k' = k then rest else (k', v') :: alRemove rest k

/-- Python truthiness of an optional string (`None` and `""` are falsy). -/
def truthy : Option String → Bool
  | none => false
  | some s => s ≠ ""

/-! ### Discovery coordinator (`_async_update_data`) -/

/-- The static configuration the coordinator reads during a cycle.  `resolve`
stands for `urllib.parse.urljoin`.  `exposeVariants` mirrors
`self.expose_variants`, which the constructor stores. -/
structure Config where
  mode : String
  preferredQuality : String
  exposeVariants : Bool
  resolve : String → String → String

/-- The coordinator's mutable per-room bookkeeping: `self._last_status` and
`self._active_streams`. -/
structure CoordState where
  lastStatus : List (String × String)
  activeStreams : List (String × List String)

/-- `_cleanup_model_streams`: one `remove` per name in the room's recorded list
(each delete's transport errors are swallowed, so a call is always issued), then
the recorded list is set to `[]`. -/
def cleanupModelStreams (activeStreams : List (String × List String)) (model : String) :
    List (String × List String) × List RelayCall :=
  (alSet activeStreams model [],
   ((alGet activeStreams model).getD []).map RelayCall.remove)

/-- Result of the per-room body of the `_async_update_data` loop. -/
structure RoomResult where
  lastStatus : List (String × String)
  activeStreams : List (String × List String)
  state : ModelState
  calls : List RelayCall
deriving Repr, DecidableEq

/-- The body of the `for model, state in await asyncio.gather(...)` loop of
`_async_update_data`, for one room: record the new status; if the room is public
with a truthy playback URL, fetch+rank variants, upsert them all, and — only when
the ranked list is non-empty — upsert the room-name alias from `variants[-1]`
and record the name list (Python appends `model` to the same list object that
`state.variant_stream_names` already references, so the recorded snapshot list
includes `model` as well); otherwise, on a previous-public to non-public
transition, remove every recorded alias and clear the record. -/
def processRoomBody (cfg : Config) (lastStatus : List (String × String))
    (activeStreams : List (String × List String)) (model : String)
    (st0 : ModelState) (manifest : FetchOutcome) : Except PyError RoomResult :=
  let prev := alGet lastStatus model
  let lastStatus' := alSet lastStatus model st0.status
  if st0.status = "public" ∧ truthy st0.url = true then
    match fetchVariants cfg.resolve cfg.preferredQuality (st0.url.getD "") manifest with
    | .error e => .error e
    | .ok variants =>
      let (names, upsertCalls) := upsertVariants cfg.mode model variants
      match variants.getLast? with
      | some best =>
        let names' := if names.contains model then names else names ++ [model]
        .ok { lastStatus := lastStatus'
              activeStreams := alSet activeStreams model names'
              state := { st0 with variants := some variants
                                  variantStreamNames := some names' }
              calls := upsertCalls ++
                [RelayCall.upsert model (sourceFor cfg.mode model best.url)] }
      | none =>
        .ok { lastStatus := lastStatus'
              activeStreams := activeStreams
              state := { st0 with variants := some variants
                                  variantStreamNames := some names }
              calls := upsertCalls }
  else
    if prev = some "public" ∧ st0.status ≠ "public" then
      let (activeStreams', removeCalls) := cleanupModelStreams activeStreams model
      .ok { lastStatus := lastStatus'
            activeStreams := activeStreams'
            state := { st0 with variants := none, variantStreamNames := none }
            calls := removeCalls }
    else
      .ok { lastStatus := lastStatus'
            activeStreams := activeStreams
            state := st0
            calls := [] }

/-- One whole `_async_update_data` cycle: phase 1 polls every configured room
(`asyncio.gather` of `_fetch_one`; the first exception propagates), phase 2 runs
the loop body per room in order, threading the coordinator state and
concatenating the relay-call trace. -/
def updateData (cfg : Config) (st : CoordState)
    (rooms : List (String × PollOutcome × FetchOutcome)) :
    Except PyError (CoordState × List (String × ModelState) × List RelayCall) :=
  match rooms.mapM (fun r => (fetchOne r.2.1).map (fun s => (r.1, s, r.2.2))) with
  | .error e => .error e
  | .ok polled =>
    polled.foldlM
      (fun acc entry =>
        match processRoomBody cfg acc.1.lastStatus acc.1.activeStreams
            entry.1 entry.2.1 entry.2.2 with
        | .error e => .error e
        | .ok r =>
          .ok (⟨r.lastStatus, r.activeStreams⟩,
               acc.2.1 ++ [(entry.1, r.state)],
               acc.2.2 ++ r.calls))
      (⟨st.lastStatus, st.activeStreams⟩, ([] : List (String × ModelState)),
       ([] : List RelayCall))

/-! ### Camera entity reconciler (`camera.py`) -/

/-- The metadata `desired_aliases` attaches to a wanted camera alias. -/
structure CamMeta where
  model : String
  aliasName : String
  title : String
deriving Repr, DecidableEq

/-- `desired_aliases` from `camera.py`: empty when the coordinator has no data;
otherwise, for each configured model whose snapshot is public, the best alias
(name == model) plus — when variant exposure is enabled and the snapshot's
variant name list is non-empty — one entry per not-yet-wanted variant name,
titled with the suffix obtained by deleting every `"{m}_"` occurrence. -/
def desiredAliases (exposeVariants : Bool) (models : List String)
    (data : List (String × ModelState)) : List (String × CamMeta) :=
  if data = [] then []
  else
    models.foldl
      (fun wants m =>
        match alGet data m with
        | none => wants
        | some st =>
          if st.status ≠ "public" then wants
          else
            let wants1 := alSet wants m ⟨m, m, m ++ " (best)"⟩
            if exposeVariants = true ∧ (st.variantStreamNames.getD []) ≠ [] then
              (st.variantStreamNames.getD []).foldl
                (fun w name =>
                  if (alGet w name).isSome then w
                  else alSet w name ⟨m, name, m ++ " " ++ name.replace (m ++ "_") ""⟩)
                wants1
            else wants1)
      []

/-- The mutable bookkeeping of the camera platform: `entities_by_alias` and the
`camera_known` set (modelled as a duplicate-free list). -/
structure CamSt where
  entities : List (String × CamMeta)
  known : List String
deriving Repr, DecidableEq

/-- The creation half of `_on_coordinator_update`: walk `wants` in order; every
alias not yet known is created (entity stored, alias added to `known` and to the
created list); known aliases are skipped.  Returns (entities, known, created). -/
def addPhase (ents : List (String × CamMeta)) (kn : List String) :
    List (String × CamMeta) → List (String × CamMeta) × List String × List String
  | [] => (ents, kn, [])
  | w :: ws =>
    if w.1 ∈ kn then addPhase ents kn ws
    else
      let r := addPhase (alSet ents w.1 w.2) (kn ++ [w.1]) ws
      (r.1, r.2.1, w.1 :: r.2.2)

/-- The removal half of `_on_coordinator_update`: for each alias of the
to-remove list, pop its entity (scheduling `async_remove` — the destroyed list —
only when an entity was actually stored) and discard the alias from `known`.
Returns (entities, known, destroyed). -/
def removePhase (ents : List (String × CamMeta)) (kn : List String) :
    List String → List (String × CamMeta) × List String × List String
  | [] => (ents, kn, [])
  | a :: as' =>
    match alGet ents a with
    | some _ =>
      let r := removePhase (alRemove ents a) (kn.erase a) as'
      (r.1, r.2.1, a :: r.2.2)
    | none => removePhase ents (kn.erase a) as'

/-- `_on_coordinator_update` from `camera.py`: add every wanted-but-unknown
alias, then remove every known-but-unwanted one.  Returns the new bookkeeping
plus the created and destroyed alias lists. -/
def onCoordinatorUpdate (wants : List (String × CamMeta)) (s : CamSt) :
    CamSt × List String × List String :=
  let a := addPhase s.entities s.known wants
  let toRemove := a.2.1.filter (fun al => (alGet wants al).isNone)
  let r := removePhase a.1 a.2.1 toRemove
  (⟨r.1, r.2.1⟩, a.2.2, r.2.2)

/-- Concrete `wants` for the C9 witness: `A` fresh, `B` still wanted but with a
changed title. -/
def wantsW : List (String × CamMeta) :=
  [("A", ⟨"A", "A", "A (best)"⟩), ("B", ⟨"B", "B", "B new"⟩)]

/-- Concrete reconciler bookkeeping for the C9 witness: `B` and `C` known, `B`
stored with its original title. -/
def sW : CamSt :=
  ⟨[("B", ⟨"B", "B", "B old"⟩), ("C", ⟨"C", "C", "C (best)"⟩)], ["B", "C"]⟩

/-! ### Concrete instantiation values used by the theorems below -/

/-- A concrete configuration for instantiations: plain mode, "best" preference,
variant exposure enabled, and URL resolution that returns the relative URL
unchanged (the second argument of `urljoin` when already absolute). -/
def cfgPlainBest : Config := ⟨"plain", "best", true, fun _ v => v⟩

/-- The same concrete configuration with variant exposure disabled. -/
def cfgNoExpose : Config := ⟨"plain", "best", false, fun _ v => v⟩

/-- A public snapshot with the given playback URL, as `_fetch_one` produces it
for the payload `{"room_status": "public", "url": u}`. -/
def stPub (u : String) : ModelState := { status := "public", url := some u }

/-! ### Lemmas about the stable sort -/

theorem mem_insertSorted {le : α → α → Bool} {a x : α} {l : List α} :
    x ∈ insertSorted le a l ↔ x = a ∨ x ∈ l := by
  induction l with
  | nil => simp [insertSorted]
  | cons b bs ih =>
    simp only [insertSorted]
    split
    · simp [List.mem_cons]
    · simp [List.mem_cons, ih]
      tauto

theorem perm_insertSorted (le : α → α → Bool) (a : α) (l : List α) :
    List.Perm (insertSorted le a l) (a :: l) := by
  induction l with
  | nil => rfl
  | cons b bs ih =>
    simp only [insertSorted]
    split
    · rfl
    · exact (ih.cons b).trans (List.Perm.swap a b bs)

theorem perm_sortByKey (le : α → α → Bool) (l : List α) : List.Perm (sortByKey le l) l := by
  induction l with
  | nil => rfl
  | cons a as ih => exact (perm_insertSorted le a (sortByKey le as)).trans (ih.cons a)

theorem pairwise_insertSorted {le : α → α → Bool}
    (total : ∀ a b, le a b = true ∨ le b a = true)
    (trans : ∀ a b c, le a b = true → le b c = true → le a c = true)
    (a : α) {l : List α} (h : l.Pairwise (fun x y => le x y = true)) :
    (insertSorted le a l).Pairwise (fun x y => le x y = true) := by
  induction l with
  | nil => simp [insertSorted]
  | cons b bs ih =>
    rcases h with _ | ⟨hb, hbs⟩
    simp only [insertSorted]
    split
    · next hab =>
      refine List.Pairwise.cons ?_ (List.Pairwise.cons hb hbs)
      intro y hy
      rcases List.mem_cons.mp hy with rfl | hy
      · exact hab
      · exact trans a b y hab (hb y hy)
    · next hab =>
      refine List.Pairwise.cons ?_ (ih hbs)
      intro y hy
      rcases mem_insertSorted.mp hy with rfl | hy
      · rcases total y b with h' | h'
        · exact absurd h' hab
        · exact h'
      · exact hb y hy

theorem pairwise_sortByKey {le : α → α → Bool}
    (total : ∀ a b, le a b = true ∨ le b a = true)
    (trans : ∀ a b c, le a b = true → le b c = true → le a c = true)
    (l : List α) : (sortByKey le l).Pairwise (fun x y => le x y = true) := by
  induction l with
  | nil => simp [sortByKey]
  | cons a as ih => exact pairwise_insertSorted total trans a ih

theorem pairwise_rel_getLast {R : α → α → Prop} {l : List α} (h : l.Pairwise R)
    {z : α} (hz : l.getLast? = some z) : ∀ x ∈ l, x = z ∨ R x z := by
  induction l with
  | nil => simp at hz
  | cons a as ih =>
    rcases h with _ | ⟨ha, has⟩
    cases as with
    | nil =>
      simp only [List.getLast?_singleton, Option.some.injEq] at hz
      intro x hx
      simp only [List.mem_singleton] at hx
      subst hx; subst hz; exact Or.inl rfl
    | cons b bs =>
      rw [List.getLast?_cons_cons] at hz
      intro x hx
      rcases List.mem_cons.mp hx with rfl | hx
      · have hzmem : z ∈ b :: bs := List.mem_of_getLast?_eq_some hz
        exact Or.inr (ha z hzmem)
      · exact ih has hz x hx

/-! ### Totality and transitivity of the two sort orders -/

theorem bestLE_total (a b : Variant) : bestLE a b = true ∨ bestLE b a = true := by
  simp only [bestLE, Bool.or_eq_true, Bool.and_eq_true, decide_eq_true_eq]
  omega

theorem bestLE_trans (a b c : Variant) :
    bestLE a b = true → bestLE b c = true → bestLE a c = true := by
  simp only [bestLE, Bool.or_eq_true, Bool.and_eq_true, decide_eq_true_eq]
  omega

theorem targetLE_total (t : Nat) (a b : Variant) :
    targetLE t a b = true ∨ targetLE t b a = true := by
  simp only [targetLE, Bool.or_eq_true, Bool.and_eq_true, decide_eq_true_eq]
  omega

theorem targetLE_trans (t : Nat) (a b c : Variant) :
    targetLE t a b = true → targetLE t b c = true → targetLE t a c = true := by
  simp only [targetLE, Bool.or_eq_true, Bool.and_eq_true, decide_eq_true_eq]
  omega

/-! ### Lemmas about the association-list dict operations -/

theorem alGet_alSet (m : List (String × α)) (k k' : String) (v : α) :
    alGet (alSet m k v) k' = if k = k' then some v else alGet m k' := by
  induction m with
  | nil =>
    simp [alSet, alGet]
  | cons p rest ih =>
    obtain ⟨k0, v0⟩ := p
    simp only [alSet]
    split
    · next h =>
      subst h
      simp only [alGet]
      split <;> rfl
    · next h =>
      simp only [alGet, ih]
      by_cases hk : k0 = k'
      · subst hk
        have : ¬ k = k0 := fun hh => h hh.symm
        simp [this]
      · simp [hk]

theorem alGet_alRemove_ne (m : List (String × α)) {k k' : String} (h : k ≠ k') :
    alGet (alRemove m k) k' = alGet m k' := by
  induction m with
  | nil => simp [alRemove]
  | cons p rest ih =>
    obtain ⟨k0, v0⟩ := p
    simp only [alRemove]
    split
    · next h0 =>
      subst h0
      simp [alGet, h]
    · next h0 =>
      simp only [alGet, ih]

/-! ### Claim C2 -/

/-- Claim C2 (code bug): the claim says a manifest fetch that fails with a
network-level error reports "no variants" and never raises.  In the code the
`aiohttp.ClientError`/`TimeoutError` handler only logs — unlike the generic
`Exception` handler right below it, it is missing the `return []`, so control
falls through to `text.splitlines()` with `text` unbound and an
`UnboundLocalError` escapes `_fetch_variants` (and `_async_update_data`).
The second conjunct shows the adjacent generic handler does return `[]`,
evidencing that swallowing the error was the intent. -/
theorem C2_network_error_raises_unbound_local :
    fetchVariants (fun _ v => v) "best" "http://h/m.m3u8" FetchOutcome.netErr
      = .error .unboundLocal
    ∧ fetchVariants (fun _ v => v) "best" "http://h/m.m3u8" FetchOutcome.unexpectedErr
      = .ok [] := ⟨rfl, rfl⟩

/-! ### Claim C8 -/

/-- Claim C8 counterexample: a non-200 response whose body is a JSON object is
not treated as an empty payload — the body is parsed and used, so a 500
response claiming `room_status: "public"` yields a public snapshot, not the
claimed offline default; and a JSON body that is not an object makes
`_fetch_one` raise (the `js.get` calls sit outside the `try`), contradicting
"always returns a RoomSnapshot and never raises". -/
theorem C8_counterexample :
    fetchOne (.response 500 (.jsonObj { roomStatus := some "public", url := some "http://u" }))
      = .ok { status := "public", url := some "http://u" }
    ∧ fetchOne (.response 200 .jsonNonObj) = .error .attributeError := ⟨rfl, rfl⟩

/-- Claim C8 (amended): a poll returns an offline snapshot with absent optional
fields on a network-level error, an unexpected request error, or a non-JSON
body; a JSON-object body determines the snapshot regardless of the HTTP status
(non-200 is only logged); a JSON body that is not an object raises an uncaught
`AttributeError` instead of returning. -/
theorem C8_poll_payload_semantics :
    (∀ status : Nat, fetchOne (.response status .notJson) = .ok {})
    ∧ fetchOne .netErr = .ok {}
    ∧ fetchOne .unexpectedErr = .ok {}
    ∧ (∀ (status : Nat) (p : Payload),
        fetchOne (.response status (.jsonObj p)) =
          .ok { status := p.roomStatus.getD "offline"
                url := p.url
                title := p.title
                viewerCount := p.viewerCount })
    ∧ (∀ status : Nat, fetchOne (.response status .jsonNonObj) = .error .attributeError) :=
  ⟨fun _ => rfl, rfl, rfl, fun _ _ => rfl, fun _ => rfl⟩

/-! ### Claim C7 -/

/-- Claim C7 counterexample: the media URL of a stream-info line is NOT "the
next non-comment line".  Here the line immediately after the stream-info line
is another tag, and a non-comment line (`media.m3u8`) follows it, yet no
`Variant` at all is produced: the code only looks at `lines[i+1]` and drops the
entry when that immediate line starts with `"#"`. -/
theorem C7_counterexample :
    parseManifest (fun _ v => v) "http://h/m.m3u8"
      "#EXT-X-STREAM-INF:BANDWIDTH=100\n#EXT-X-OTHER-TAG\nmedia.m3u8" = [] := by decide

/-- Claim C7 (amended): the media URL associated with a stream-info line is the
immediately following stripped non-blank line, resolved against the manifest
URL; a `Variant` is produced exactly when that immediate line exists and does
not start with `"#"` (a trailing stream-info line with no following line yields
nothing). -/
theorem C7_media_url_is_immediate_next_line
    (resolve : String → String → String) (masterUrl line next : String)
    (rest : List String)
    (hinf : startsWithCL "#EXT-X-STREAM-INF:" line = true) :
    parseLines resolve masterUrl (line :: next :: rest) =
      (if startsWithCL "#" next then
        parseLines resolve masterUrl (next :: rest)
      else
        Variant.mk (bandwidthOf (afterFirstColon line)) (resolutionOf (afterFirstColon line))
            (resolve masterUrl next) :: parseLines resolve masterUrl (next :: rest))
    ∧ parseLines resolve masterUrl [line] = [] := by
  constructor
  · simp only [parseLines, hinf, if_true]
  · simp only [parseLines]

/-- Claim C7 witness: the amended statement at a concrete manifest line. -/
theorem C7_witness :
    startsWithCL "#EXT-X-STREAM-INF:" "#EXT-X-STREAM-INF:BANDWIDTH=5" = true
    ∧ (parseLines (fun _ v => v) "http://h/m.m3u8" ["#EXT-X-STREAM-INF:BANDWIDTH=5", "u.m3u8"] =
        (if startsWithCL "#" "u.m3u8" then
          parseLines (fun _ v => v) "http://h/m.m3u8" ["u.m3u8"]
        else
          Variant.mk (bandwidthOf (afterFirstColon "#EXT-X-STREAM-INF:BANDWIDTH=5"))
              (resolutionOf (afterFirstColon "#EXT-X-STREAM-INF:BANDWIDTH=5"))
              ((fun _ v => v) "http://h/m.m3u8" "u.m3u8")
            :: parseLines (fun _ v => v) "http://h/m.m3u8" ["u.m3u8"])
      ∧ parseLines (fun _ v => v) "http://h/m.m3u8" ["#EXT-X-STREAM-INF:BANDWIDTH=5"] = []) :=
  ⟨by decide,
   C7_media_url_is_immediate_next_line (fun _ v => v) "http://h/m.m3u8"
     "#EXT-X-STREAM-INF:BANDWIDTH=5" "u.m3u8" [] (by decide)⟩

/-! ### Claim C5 -/

/-- Claim C5 (confirmed): for a target preference (anything other than the
literal `"best"`), whenever some variant's resolution height — the first
embedded integer of the resolution string, 0 when unparsable — equals the
preference's height, the ranked output starts with a variant of exactly that
height: the sort key is (distance from target, descending bandwidth), and an
exact match has distance 0. -/
theorem C5_target_exact_match_ranked_first
    (pref : String) (hpref : pref ≠ "best") (vs : List Variant) (v : Variant)
    (hv : v ∈ vs) (hmatch : resToNum v.resolution = resToNum pref) :
    ∃ w rest, rankVariants pref vs = w :: rest
      ∧ resToNum w.resolution = resToNum pref := by
  unfold rankVariants
  rw [if_neg hpref]
  have hv' : v ∈ sortByKey (targetLE (resToNum pref)) vs :=
    ((perm_sortByKey _ vs).mem_iff).mpr hv
  obtain ⟨w, rest, heq⟩ : ∃ w rest, sortByKey (targetLE (resToNum pref)) vs = w :: rest := by
    cases h : sortByKey (targetLE (resToNum pref)) vs with
    | nil => rw [h] at hv'; cases hv'
    | cons w rest => exact ⟨w, rest, rfl⟩
  refine ⟨w, rest, heq, ?_⟩
  have hpw := pairwise_sortByKey (targetLE_total (resToNum pref))
    (targetLE_trans (resToNum pref)) vs
  rw [heq] at hpw hv'
  rcases List.mem_cons.mp hv' with rfl | hv''
  · exact hmatch
  · rcases hpw with _ | ⟨hw, _⟩
    have hle := hw v hv''
    simp only [targetLE, Bool.or_eq_true, Bool.and_eq_true, decide_eq_true_eq] at hle
    have hdv : targetDist (resToNum pref) v = 0 := by
      simp only [targetDist, hmatch]
      omega
    have hdw : targetDist (resToNum pref) w = 0 := by omega
    simp only [targetDist] at hdw
    omega

/-- Claim C5 witness: preference `"720p"` (height 720) on a list containing a
variant whose resolution's first embedded integer is exactly 720 ranks that
variant first (note the first embedded integer of a `WxH` string is the width,
e.g. `resToNum "720x404" = 720` while `resToNum "1080x608" = 1080`). -/
theorem C5_witness :
    ("720p" ≠ "best")
    ∧ (Variant.mk 50 "720x404" "b" ∈
        [Variant.mk 100 "1080x608" "a", Variant.mk 50 "720x404" "b"])
    ∧ (resToNum "720x404" = resToNum "720p")
    ∧ (∃ w rest,
        rankVariants "720p" [Variant.mk 100 "1080x608" "a", Variant.mk 50 "720x404" "b"]
          = w :: rest
        ∧ resToNum w.resolution = resToNum "720p") :=
  ⟨by decide, by decide, by decide,
   C5_target_exact_match_ranked_first "720p" (by decide)
     [Variant.mk 100 "1080x608" "a", Variant.mk 50 "720x404" "b"]
     (Variant.mk 50 "720x404" "b") (by decide) (by decide)⟩

/-! ### Claim C1 -/

/-- Claim C1 counterexample: with the `"best"` preference the ranked list is
descending in bandwidth, so its top-ranked variant here is the 200-bandwidth
one (`hi.m3u8`); but the room-name alias is upserted from `variants[-1]` — the
bottom of the ordering — so its source is built from the 100-bandwidth
`lo.m3u8`, and no upsert of the room name with the top-ranked source occurs. -/
theorem C1_counterexample :
    ((processRoomBody cfgPlainBest [] [] "m"
        { status := "public", url := some "http://h/m.m3u8" }
        (.ok 200 "#EXT-X-STREAM-INF:BANDWIDTH=200,RESOLUTION=1920x1080\nhi.m3u8\n#EXT-X-STREAM-INF:BANDWIDTH=100,RESOLUTION=1280x720\nlo.m3u8")).toOption.map
      RoomResult.calls)
      = some [RelayCall.upsert "m_1080p" (sourceFor "plain" "m" "hi.m3u8"),
              RelayCall.upsert "m_720p" (sourceFor "plain" "m" "lo.m3u8"),
              RelayCall.upsert "m" (sourceFor "plain" "m" "lo.m3u8")]
    ∧ sourceFor "plain" "m" "lo.m3u8" ≠ sourceFor "plain" "m" "hi.m3u8"
    ∧ RelayCall.upsert "m" (sourceFor "plain" "m" "hi.m3u8") ∉
        [RelayCall.upsert "m_1080p" (sourceFor "plain" "m" "hi.m3u8"),
         RelayCall.upsert "m_720p" (sourceFor "plain" "m" "lo.m3u8"),
         RelayCall.upsert "m" (sourceFor "plain" "m" "lo.m3u8")] := by
  refine ⟨by decide, by decide, by decide⟩

/-- Claim C1 (amended): for every public room with a truthy playback URL whose
ranked variant list is non-empty, the room-name alias upsert is the final relay
call of the step and its source is built from the LAST element of the Quality
Selector's ordering (`variants[-1]`); under the `"best"` preference that
element has MINIMUM bandwidth among the ranked variants (ties broken toward
minimum first-embedded-integer of the resolution), not maximum. -/
theorem C1_best_alias_from_last_of_ranking
    (cfg : Config) (lastStatus : List (String × String))
    (activeStreams : List (String × List String)) (model : String)
    (st0 : ModelState) (manifest : FetchOutcome)
    (hpub : st0.status = "public" ∧ truthy st0.url = true)
    (vs : List Variant)
    (hvs : fetchVariants cfg.resolve cfg.preferredQuality (st0.url.getD "") manifest = .ok vs)
    (best : Variant) (hlast : vs.getLast? = some best) :
    ∃ res, processRoomBody cfg lastStatus activeStreams model st0 manifest = .ok res
      ∧ res.calls = (upsertVariants cfg.mode model vs).2
          ++ [RelayCall.upsert model (sourceFor cfg.mode model best.url)]
      ∧ (cfg.preferredQuality = "best" →
          ∀ v ∈ vs, best.bandwidth ≤ v.bandwidth
            ∧ (best.bandwidth = v.bandwidth →
                resToNum best.resolution ≤ resToNum v.resolution)) := by
  refine ⟨?_, ?_, ?_, ?_⟩
  · exact { lastStatus := alSet lastStatus model st0.status
            activeStreams := alSet activeStreams model
              (if (upsertVariants cfg.mode model vs).1.contains model
               then (upsertVariants cfg.mode model vs).1
               else (upsertVariants cfg.mode model vs).1 ++ [model])
            state := { st0 with variants := some vs
                                variantStreamNames := some
                                  (if (upsertVariants cfg.mode model vs).1.contains model
                                   then (upsertVariants cfg.mode model vs).1
                                   else (upsertVariants cfg.mode model vs).1 ++ [model]) }
            calls := (upsertVariants cfg.mode model vs).2
              ++ [RelayCall.upsert model (sourceFor cfg.mode model best.url)] }
  · unfold processRoomBody
    rw [if_pos hpub, hvs]
    simp only [upsertVariants, hlast]
  · rfl
  · intro hbest v hvmem
    cases manifest with
    | netErr => simp [fetchVariants] at hvs
    | unexpectedErr =>
      simp only [fetchVariants, Except.ok.injEq] at hvs
      subst hvs
      simp at hlast
    | ok status body =>
      simp only [fetchVariants, Except.ok.injEq] at hvs
      subst hvs
      rw [hbest] at hlast hvmem
      simp only [rankVariants, if_pos rfl] at hlast hvmem
      have hpw := pairwise_sortByKey bestLE_total bestLE_trans
        (parseManifest cfg.resolve (st0.url.getD "") body)
      have hrel := pairwise_rel_getLast hpw hlast v hvmem
      rcases hrel with rfl | hrel
      · exact ⟨Nat.le_refl _, fun _ => Nat.le_refl _⟩
      · simp only [bestLE, Bool.or_eq_true, Bool.and_eq_true, decide_eq_true_eq] at hrel
        constructor
        · omega
        · intro hb
          omega

/-- Claim C1 witness: the amended statement at the two-variant manifest; the
room-name alias call uses `lo.m3u8`, the minimum-bandwidth ranked variant. -/
theorem C1_witness :
    ((stPub "http://h/m.m3u8").status = "public"
      ∧ truthy (stPub "http://h/m.m3u8").url = true)
    ∧ fetchVariants cfgPlainBest.resolve cfgPlainBest.preferredQuality
        ((stPub "http://h/m.m3u8").url.getD "")
        (.ok 200 "#EXT-X-STREAM-INF:BANDWIDTH=200,RESOLUTION=1920x1080\nhi.m3u8\n#EXT-X-STREAM-INF:BANDWIDTH=100,RESOLUTION=1280x720\nlo.m3u8")
        = .ok [Variant.mk 200 "1920x1080" "hi.m3u8", Variant.mk 100 "1280x720" "lo.m3u8"]
    ∧ ([Variant.mk 200 "1920x1080" "hi.m3u8", Variant.mk 100 "1280x720" "lo.m3u8"].getLast?
        = some (Variant.mk 100 "1280x720" "lo.m3u8"))
    ∧ (∃ res, processRoomBody cfgPlainBest [] [] "m" (stPub "http://h/m.m3u8")
          (.ok 200 "#EXT-X-STREAM-INF:BANDWIDTH=200,RESOLUTION=1920x1080\nhi.m3u8\n#EXT-X-STREAM-INF:BANDWIDTH=100,RESOLUTION=1280x720\nlo.m3u8")
          = .ok res
        ∧ res.calls = (upsertVariants cfgPlainBest.mode "m"
            [Variant.mk 200 "1920x1080" "hi.m3u8", Variant.mk 100 "1280x720" "lo.m3u8"]).2
            ++ [RelayCall.upsert "m"
              (sourceFor cfgPlainBest.mode "m" (Variant.mk 100 "1280x720" "lo.m3u8").url)]
        ∧ (cfgPlainBest.preferredQuality = "best" →
            ∀ v ∈ [Variant.mk 200 "1920x1080" "hi.m3u8", Variant.mk 100 "1280x720" "lo.m3u8"],
              (Variant.mk 100 "1280x720" "lo.m3u8").bandwidth ≤ v.bandwidth
              ∧ ((Variant.mk 100 "1280x720" "lo.m3u8").bandwidth = v.bandwidth →
                  resToNum (Variant.mk 100 "1280x720" "lo.m3u8").resolution
                    ≤ resToNum v.resolution))) :=
  ⟨⟨rfl, by decide⟩, by decide, by decide,
   C1_best_alias_from_last_of_ranking cfgPlainBest [] [] "m" (stPub "http://h/m.m3u8")
     (.ok 200 "#EXT-X-STREAM-INF:BANDWIDTH=200,RESOLUTION=1920x1080\nhi.m3u8\n#EXT-X-STREAM-INF:BANDWIDTH=100,RESOLUTION=1280x720\nlo.m3u8")
     ⟨rfl, by decide⟩
     [Variant.mk 200 "1920x1080" "hi.m3u8", Variant.mk 100 "1280x720" "lo.m3u8"]
     (by decide) (Variant.mk 100 "1280x720" "lo.m3u8") (by decide)⟩

/-! ### Claim C4 -/

/-- Claim C4 counterexample: a public room whose manifest parses to zero
variants gets NO relay call at all — in particular the room-name alias is not
upserted at the raw playback URL as the claim states: the alias upsert sits
inside `if variants:` and there is no else-branch fallback. -/
theorem C4_counterexample :
    ((processRoomBody cfgPlainBest [] [] "m" (stPub "http://h/m.m3u8")
        (.ok 200 "#EXTM3U")).toOption.map RoomResult.calls) = some []
    ∧ ((processRoomBody cfgPlainBest [] [] "m" (stPub "http://h/m.m3u8")
        (.ok 200 "#EXTM3U")).toOption.map (fun r => r.state.variants)) = some (some [])
    ∧ ((processRoomBody cfgPlainBest [] [] "m" (stPub "http://h/m.m3u8")
        (.ok 200 "#EXTM3U")).toOption.map (fun r => r.state.status)) = some "public" := by
  refine ⟨by decide, by decide, by decide⟩

/-- Claim C4 (amended): for every public room with a truthy playback URL and a
successfully fetched variant list, the room-name alias is upserted — pointing
at the last element of the ranked list — only when that list is non-empty; when
the ranked list is empty the step issues no relay call at all (no raw-URL
fallback exists). -/
theorem C4_best_alias_only_when_variants_nonempty
    (cfg : Config) (lastStatus : List (String × String))
    (activeStreams : List (String × List String)) (model : String)
    (st0 : ModelState) (manifest : FetchOutcome)
    (hpub : st0.status = "public" ∧ truthy st0.url = true)
    (vs : List Variant)
    (hvs : fetchVariants cfg.resolve cfg.preferredQuality (st0.url.getD "") manifest = .ok vs) :
    ∃ res, processRoomBody cfg lastStatus activeStreams model st0 manifest = .ok res
      ∧ (vs = [] → res.calls = [])
      ∧ (∀ best, vs.getLast? = some best →
          RelayCall.upsert model (sourceFor cfg.mode model best.url) ∈ res.calls) := by
  unfold processRoomBody
  rw [if_pos hpub, hvs]
  simp only [upsertVariants]
  cases hlast : vs.getLast? with
  | none =>
    have hnil := List.getLast?_eq_none_iff.mp hlast
    subst hnil
    exact ⟨_, rfl, fun _ => rfl, fun best hb => by cases hb⟩
  | some best' =>
    refine ⟨_, rfl, ?_, ?_⟩
    · intro h
      subst h
      cases hlast
    · intro b hb
      obtain rfl : best' = b := by injection hb
      exact List.mem_append_right _ (List.mem_singleton.mpr rfl)

/-- Claim C4 witness: the amended statement at the empty manifest `"#EXTM3U"`. -/
theorem C4_witness :
    ((stPub "http://h/m.m3u8").status = "public"
      ∧ truthy (stPub "http://h/m.m3u8").url = true)
    ∧ fetchVariants cfgPlainBest.resolve cfgPlainBest.preferredQuality
        ((stPub "http://h/m.m3u8").url.getD "") (.ok 200 "#EXTM3U") = .ok []
    ∧ (∃ res, processRoomBody cfgPlainBest [] [] "m" (stPub "http://h/m.m3u8")
          (.ok 200 "#EXTM3U") = .ok res
        ∧ (([] : List Variant) = [] → res.calls = [])
        ∧ (∀ best, ([] : List Variant).getLast? = some best →
            RelayCall.upsert "m" (sourceFor cfgPlainBest.mode "m" best.url) ∈ res.calls)) :=
  ⟨⟨rfl, by decide⟩, by decide,
   C4_best_alias_only_when_variants_nonempty cfgPlainBest [] [] "m"
     (stPub "http://h/m.m3u8") (.ok 200 "#EXTM3U") ⟨rfl, by decide⟩ [] (by decide)⟩

/-! ### Claim C3 -/

/-- Claim C3 counterexample: with the variant-exposure flag DISABLED the
coordinator still upserts the variant alias `m_720p` at the relay —
`_async_update_data` calls `_upsert_variants` unconditionally and never reads
`self.expose_variants`. -/
theorem C3_counterexample :
    cfgNoExpose.exposeVariants = false
    ∧ ((processRoomBody cfgNoExpose [] [] "m" (stPub "http://h/m.m3u8")
        (.ok 200 "#EXT-X-STREAM-INF:BANDWIDTH=800000,RESOLUTION=1280x720\n720p.m3u8")).toOption.map
        RoomResult.calls)
      = some [RelayCall.upsert "m_720p" (sourceFor "plain" "m" "720p.m3u8"),
              RelayCall.upsert "m" (sourceFor "plain" "m" "720p.m3u8")] := by
  refine ⟨rfl, by decide⟩

/-- Claim C3 (amended): relay variant-alias upserts do not depend on the
variant-exposure flag at all — the coordinator's step is invariant under the
flag, and every parsed variant gets its `{room}_{suffix}` upsert on every
public cycle; the flag instead gates only which camera entities are desired
(`desired_aliases` in `camera.py`). -/
theorem C3_variant_upserts_independent_of_flag
    (cfg : Config) (lastStatus : List (String × String))
    (activeStreams : List (String × List String)) (model : String)
    (st0 : ModelState) (manifest : FetchOutcome) :
    (∀ b : Bool,
      processRoomBody { cfg with exposeVariants := b } lastStatus activeStreams model st0 manifest
        = processRoomBody cfg lastStatus activeStreams model st0 manifest)
    ∧ (∀ vs, st0.status = "public" ∧ truthy st0.url = true →
        fetchVariants cfg.resolve cfg.preferredQuality (st0.url.getD "") manifest = .ok vs →
        ∃ res, processRoomBody cfg lastStatus activeStreams model st0 manifest = .ok res
          ∧ ∀ v ∈ vs,
              RelayCall.upsert (variantName model v) (sourceFor cfg.mode model v.url)
                ∈ res.calls) := by
  constructor
  · intro b
    cases cfg
    rfl
  · intro vs hpub hvs
    unfold processRoomBody
    rw [if_pos hpub, hvs]
    simp only [upsertVariants]
    cases hlast : vs.getLast? with
    | none =>
      refine ⟨_, rfl, ?_⟩
      intro v hv
      rw [List.getLast?_eq_none_iff.mp hlast] at hv
      cases hv
    | some best =>
      refine ⟨_, rfl, ?_⟩
      intro v hv
      exact List.mem_append_left _ (List.mem_map_of_mem _ hv)

/-- Claim C3 witness: the amended statement at a one-variant manifest with the
flag disabled. -/
theorem C3_witness :
    ((stPub "http://h/m.m3u8").status = "public"
      ∧ truthy (stPub "http://h/m.m3u8").url = true)
    ∧ fetchVariants cfgNoExpose.resolve cfgNoExpose.preferredQuality
        ((stPub "http://h/m.m3u8").url.getD "")
        (.ok 200 "#EXT-X-STREAM-INF:BANDWIDTH=800000,RESOLUTION=1280x720\n720p.m3u8")
        = .ok [Variant.mk 800000 "1280x720" "720p.m3u8"]
    ∧ (∃ res, processRoomBody cfgNoExpose [] [] "m" (stPub "http://h/m.m3u8")
          (.ok 200 "#EXT-X-STREAM-INF:BANDWIDTH=800000,RESOLUTION=1280x720\n720p.m3u8")
          = .ok res
        ∧ ∀ v ∈ [Variant.mk 800000 "1280x720" "720p.m3u8"],
            RelayCall.upsert (variantName "m" v) (sourceFor cfgNoExpose.mode "m" v.url)
              ∈ res.calls) :=
  ⟨⟨rfl, by decide⟩, by decide,
   (C3_variant_upserts_independent_of_flag cfgNoExpose [] [] "m"
      (stPub "http://h/m.m3u8")
      (.ok 200 "#EXT-X-STREAM-INF:BANDWIDTH=800000,RESOLUTION=1280x720\n720p.m3u8")).2
     [Variant.mk 800000 "1280x720" "720p.m3u8"] ⟨rfl, by decide⟩ (by decide)⟩

/-! ### Claim C6 -/

theorem removesOf_append (a b : List RelayCall) :
    removesOf (a ++ b) = removesOf a ++ removesOf b :=
  List.filterMap_append a b _

theorem removesOf_map_upsert {α : Type} (g h : α → String) (l : List α) :
    removesOf (l.map (fun v => RelayCall.upsert (g v) (h v))) = [] := by
  induction l with
  | nil => rfl
  | cons a as ih => simp only [removesOf, List.map_cons, List.filterMap_cons] at ih ⊢; exact ih

theorem removesOf_map_remove (l : List String) :
    removesOf (l.map RelayCall.remove) = l := by
  induction l with
  | nil => rfl
  | cons a as ih => simp [removesOf, List.filterMap_cons] at ih ⊢; exact ih

/-- Claim C6 counterexample: two variants with the same resolution produce the
same computed alias name (`_upsert_variants` does not de-duplicate the name
list), so after such a public cycle the recorded list is
`["m_720p", "m_720p", "m"]`; the later PUBLIC→NOT_PUBLIC transition then issues
the remove for `m_720p` TWICE — not "exactly one remove call per previously
recorded alias name". -/
theorem C6_counterexample :
    ((processRoomBody cfgPlainBest [] [] "m" (stPub "http://h/m.m3u8")
        (.ok 200 "#EXT-X-STREAM-INF:BANDWIDTH=200,RESOLUTION=1280x720\na.m3u8\n#EXT-X-STREAM-INF:BANDWIDTH=100,RESOLUTION=1280x720\nb.m3u8")).toOption.map
        RoomResult.activeStreams)
      = some [("m", ["m_720p", "m_720p", "m"])]
    ∧ ((processRoomBody cfgPlainBest [("m", "public")] [("m", ["m_720p", "m_720p", "m"])]
          "m" { status := "offline" } FetchOutcome.netErr).toOption.map RoomResult.calls)
      = some [RelayCall.remove "m_720p", RelayCall.remove "m_720p", RelayCall.remove "m"] := by
  refine ⟨by decide, by decide⟩

/-- Claim C6 (amended): on a PUBLIC→NOT_PUBLIC transition the step issues one
`remove` per ENTRY of the room's recorded alias-name list, in order (a name
recorded twice because two variants shared a suffix is removed twice), then
clears that room's recorded list, leaving every other room's recorded entry
untouched; a step for a room that is not transitioning issues no `remove`
call at all. -/
theorem C6_transition_removes_each_recorded_entry
    (cfg : Config) (lastStatus : List (String × String))
    (activeStreams : List (String × List String)) (model : String)
    (st0 : ModelState) (manifest : FetchOutcome) :
    (alGet lastStatus model = some "public" ∧ st0.status ≠ "public" →
      ∃ res, processRoomBody cfg lastStatus activeStreams model st0 manifest = .ok res
        ∧ res.calls = ((alGet activeStreams model).getD []).map RelayCall.remove
        ∧ alGet res.activeStreams model = some []
        ∧ (∀ m', m' ≠ model → alGet res.activeStreams m' = alGet activeStreams m'))
    ∧ (¬(alGet lastStatus model = some "public" ∧ st0.status ≠ "public") →
        ∀ res, processRoomBody cfg lastStatus activeStreams model st0 manifest = .ok res →
          removesOf res.calls = []) := by
  constructor
  · rintro ⟨hprev, hnp⟩
    simp only [processRoomBody]
    rw [if_neg (fun h => hnp h.1), if_pos ⟨hprev, hnp⟩]
    simp only [cleanupModelStreams]
    refine ⟨_, rfl, rfl, ?_, ?_⟩
    · rw [alGet_alSet]
      simp
    · intro m' hm'
      rw [alGet_alSet]
      rw [if_neg (fun h => hm' h.symm)]
  · intro hnt res hres
    simp only [processRoomBody] at hres
    by_cases hpub : st0.status = "public" ∧ truthy st0.url = true
    · rw [if_pos hpub] at hres
      cases hfv : fetchVariants cfg.resolve cfg.preferredQuality (st0.url.getD "") manifest with
      | error e => rw [hfv] at hres; cases hres
      | ok vs =>
        rw [hfv] at hres
        simp only [upsertVariants] at hres
        cases hlast : vs.getLast? with
        | some best =>
          rw [hlast] at hres
          obtain rfl : _ = res := by injection hres
          simp only []
          rw [removesOf_append,
            removesOf_map_upsert (fun v => variantName model v)
              (fun v => sourceFor cfg.mode model v.url) vs]
          rfl
        | none =>
          rw [hlast] at hres
          obtain rfl : _ = res := by injection hres
          exact removesOf_map_upsert (fun v => variantName model v)
            (fun v => sourceFor cfg.mode model v.url) vs
    · rw [if_neg hpub, if_neg hnt] at hres
      obtain rfl : _ = res := by injection hres
      rfl

/-- Claim C6 witness: the amended statement at a concrete transition with one
recorded alias list and a second, non-transitioning room untouched. -/
theorem C6_witness :
    (alGet [("m", "public"), ("w", "public")] "m" = some "public"
      ∧ ("offline" : String) ≠ "public")
    ∧ (∃ res, processRoomBody cfgPlainBest [("m", "public"), ("w", "public")]
          [("m", ["m_720p", "m"]), ("w", ["w"])] "m" { status := "offline" }
          FetchOutcome.netErr = .ok res
        ∧ res.calls = ((alGet [("m", ["m_720p", "m"]), ("w", ["w"])] "m").getD []).map
            RelayCall.remove
        ∧ alGet res.activeStreams "m" = some []
        ∧ (∀ m', m' ≠ "m" →
            alGet res.activeStreams m' = alGet [("m", ["m_720p", "m"]), ("w", ["w"])] m')) :=
  ⟨⟨by decide, by decide⟩,
   (C6_transition_removes_each_recorded_entry cfgPlainBest
      [("m", "public"), ("w", "public")] [("m", ["m_720p", "m"]), ("w", ["w"])]
      "m" { status := "offline" } FetchOutcome.netErr).1 ⟨by decide, by decide⟩⟩

/-! ### Claim C10 -/

/-- Claim C10 (confirmed): when a room polls public with a truthy playback URL
but the ranked variant list comes back empty, the recorded alias map
(`self._active_streams`) is left entirely unchanged — the assignment
`self._active_streams[model] = names` sits inside `if variants:` — while the
snapshot still records `variant_stream_names = []`; consequently a later
transition to non-public still removes exactly the alias names recorded in the
earlier non-empty cycle. -/
theorem C10_empty_variants_keep_recorded
    (cfg : Config) (lastStatus : List (String × String))
    (activeStreams : List (String × List String)) (model : String)
    (st0 : ModelState) (manifest : FetchOutcome)
    (hpub : st0.status = "public" ∧ truthy st0.url = true)
    (hvs : fetchVariants cfg.resolve cfg.preferredQuality (st0.url.getD "") manifest
      = .ok []) :
    ∃ res, processRoomBody cfg lastStatus activeStreams model st0 manifest = .ok res
      ∧ res.activeStreams = activeStreams
      ∧ res.state.variantStreamNames = some []
      ∧ res.calls = []
      ∧ alGet res.lastStatus model = some "public"
      ∧ (∀ (st1 : ModelState) (manifest2 : FetchOutcome), st1.status ≠ "public" →
          ∃ res2, processRoomBody cfg res.lastStatus res.activeStreams model st1 manifest2
              = .ok res2
            ∧ res2.calls = ((alGet activeStreams model).getD []).map RelayCall.remove
            ∧ alGet res2.activeStreams model = some []) := by
  have hprev : alGet (alSet lastStatus model st0.status) model = some "public" := by
    rw [alGet_alSet]
    simp [hpub.1]
  refine ⟨⟨alSet lastStatus model st0.status, activeStreams,
      { st0 with variants := some [], variantStreamNames := some [] }, []⟩, ?_, rfl, rfl, rfl,
      hprev, ?_⟩
  · unfold processRoomBody
    rw [if_pos hpub, hvs]
    rfl
  · intro st1 manifest2 hnp
    simp only [processRoomBody]
    rw [if_neg (fun h => hnp h.1), if_pos ⟨hprev, hnp⟩]
    simp only [cleanupModelStreams]
    refine ⟨_, rfl, rfl, ?_⟩
    rw [alGet_alSet]
    simp

/-- Claim C10 witness: a public cycle over an empty manifest keeps the
previously recorded `["m_720p", "m"]` and a later offline poll removes exactly
those names. -/
theorem C10_witness :
    ((stPub "http://h/m.m3u8").status = "public"
      ∧ truthy (stPub "http://h/m.m3u8").url = true)
    ∧ fetchVariants cfgPlainBest.resolve cfgPlainBest.preferredQuality
        ((stPub "http://h/m.m3u8").url.getD "") (.ok 200 "#EXTM3U\n#EXT-X-VERSION:3")
        = .ok []
    ∧ (∃ res, processRoomBody cfgPlainBest [("m", "public")] [("m", ["m_720p", "m"])] "m"
          (stPub "http://h/m.m3u8") (.ok 200 "#EXTM3U\n#EXT-X-VERSION:3") = .ok res
        ∧ res.activeStreams = [("m", ["m_720p", "m"])]
        ∧ res.state.variantStreamNames = some []
        ∧ res.calls = []
        ∧ alGet res.lastStatus "m" = some "public"
        ∧ (∀ (st1 : ModelState) (manifest2 : FetchOutcome), st1.status ≠ "public" →
            ∃ res2, processRoomBody cfgPlainBest res.lastStatus res.activeStreams "m" st1
                manifest2 = .ok res2
              ∧ res2.calls = ((alGet [("m", ["m_720p", "m"])] "m").getD []).map
                  RelayCall.remove
              ∧ alGet res2.activeStreams "m" = some [])) :=
  ⟨⟨rfl, by decide⟩, by decide,
   C10_empty_variants_keep_recorded cfgPlainBest [("m", "public")] [("m", ["m_720p", "m"])]
     "m" (stPub "http://h/m.m3u8") (.ok 200 "#EXTM3U\n#EXT-X-VERSION:3")
     ⟨rfl, by decide⟩ (by decide)⟩

/-! ### Claim C9: lemmas about the two reconciliation phases -/

theorem alGet_isSome_iff {α : Type} {m : List (String × α)} {k : String} :
    (alGet m k).isSome ↔ k ∈ m.map Prod.fst := by
  induction m with
  | nil => simp [alGet]
  | cons p rest ih =>
    obtain ⟨k0, v0⟩ := p
    simp only [alGet, List.map_cons, List.mem_cons]
    split
    · next h => simp [h.symm]
    · next h =>
      constructor
      · intro hs
        exact Or.inr (ih.mp hs)
      · rintro (rfl | hm)
        · exact absurd rfl h
        · exact ih.mpr hm

theorem addPhase_created (ents : List (String × CamMeta)) (kn : List String)
    (ws : List (String × CamMeta)) (hw : (ws.map Prod.fst).Nodup) :
    (addPhase ents kn ws).2.2 = (ws.map Prod.fst).filter (fun a => decide (a ∉ kn)) := by
  induction ws generalizing ents kn with
  | nil => rfl
  | cons w ws ih =>
    simp only [List.map_cons, List.nodup_cons] at hw
    obtain ⟨hw1, hw2⟩ := hw
    simp only [addPhase, List.map_cons, List.filter_cons]
    by_cases h : w.1 ∈ kn
    · rw [if_pos h, if_neg (by simp [h])]
      exact ih ents kn hw2
    · rw [if_neg h, if_pos (by simp [h])]
      show w.1 :: (addPhase (alSet ents w.1 w.2) (kn ++ [w.1]) ws).2.2
          = w.1 :: (ws.map Prod.fst).filter (fun a => decide (a ∉ kn))
      rw [ih (alSet ents w.1 w.2) (kn ++ [w.1]) hw2]
      congr 1
      apply List.filter_congr
      intro a ha
      have hne : a ≠ w.1 := fun hh => hw1 (hh ▸ ha)
      simp [List.mem_append, hne]

theorem addPhase_known (ents : List (String × CamMeta)) (kn : List String)
    (ws : List (String × CamMeta)) :
    (addPhase ents kn ws).2.1 = kn ++ (addPhase ents kn ws).2.2 := by
  induction ws generalizing ents kn with
  | nil => simp [addPhase]
  | cons w ws ih =>
    simp only [addPhase]
    by_cases h : w.1 ∈ kn
    · rw [if_pos h]
      exact ih ents kn
    · rw [if_neg h]
      show (addPhase (alSet ents w.1 w.2) (kn ++ [w.1]) ws).2.1
          = kn ++ w.1 :: (addPhase (alSet ents w.1 w.2) (kn ++ [w.1]) ws).2.2
      rw [ih (alSet ents w.1 w.2) (kn ++ [w.1])]
      simp

theorem addPhase_entities_preserved (ents : List (String × CamMeta)) (kn : List String)
    (ws : List (String × CamMeta)) {a : String} (ha : a ∈ kn) :
    alGet (addPhase ents kn ws).1 a = alGet ents a := by
  induction ws generalizing ents kn with
  | nil => rfl
  | cons w ws ih =>
    simp only [addPhase]
    by_cases h : w.1 ∈ kn
    · rw [if_pos h]
      exact ih ents kn ha
    · rw [if_neg h]
      show alGet (addPhase (alSet ents w.1 w.2) (kn ++ [w.1]) ws).1 a = alGet ents a
      rw [ih (alSet ents w.1 w.2) (kn ++ [w.1]) (List.mem_append_left _ ha)]
      rw [alGet_alSet]
      rw [if_neg (fun hh => h (by rw [hh]; exact ha))]

theorem addPhase_sync (ents : List (String × CamMeta)) (kn : List String)
    (ws : List (String × CamMeta)) (hsync : ∀ x ∈ kn, (alGet ents x).isSome) :
    ∀ a ∈ (addPhase ents kn ws).2.1, (alGet (addPhase ents kn ws).1 a).isSome := by
  induction ws generalizing ents kn with
  | nil => exact hsync
  | cons w ws ih =>
    simp only [addPhase]
    by_cases h : w.1 ∈ kn
    · rw [if_pos h]
      exact ih ents kn hsync
    · rw [if_neg h]
      show ∀ a ∈ (addPhase (alSet ents w.1 w.2) (kn ++ [w.1]) ws).2.1,
        (alGet (addPhase (alSet ents w.1 w.2) (kn ++ [w.1]) ws).1 a).isSome
      apply ih
      intro x hx
      rcases List.mem_append.mp hx with hx | hx
      · rw [alGet_alSet]
        split
        · simp
        · exact hsync x hx
      · simp only [List.mem_singleton] at hx
        subst hx
        rw [alGet_alSet, if_pos rfl]
        simp

theorem addPhase_known_nodup (ents : List (String × CamMeta)) (kn : List String)
    (ws : List (String × CamMeta)) (hk : kn.Nodup) (hw : (ws.map Prod.fst).Nodup) :
    (addPhase ents kn ws).2.1.Nodup := by
  rw [addPhase_known, addPhase_created ents kn ws hw]
  refine List.Nodup.append hk (hw.filter _) ?_
  intro a ha hb
  have := List.of_mem_filter hb
  simp only [decide_eq_true_eq] at this
  exact this ha

theorem removePhase_destroyed (ents : List (String × CamMeta)) (kn : List String)
    (tr : List String) (htr : tr.Nodup) (h : ∀ a ∈ tr, (alGet ents a).isSome) :
    (removePhase ents kn tr).2.2 = tr := by
  induction tr generalizing ents kn with
  | nil => rfl
  | cons a as ih =>
    simp only [List.nodup_cons] at htr
    obtain ⟨ha, has⟩ := htr
    have hsome := h a (List.mem_cons_self a as)
    simp only [removePhase]
    cases hget : alGet ents a with
    | none => rw [hget] at hsome; simp at hsome
    | some m =>
      show a :: (removePhase (alRemove ents a) (kn.erase a) as).2.2 = a :: as
      congr 1
      refine ih (alRemove ents a) (kn.erase a) has ?_
      intro b hb
      rw [alGet_alRemove_ne _ (fun hh => ha (by rw [hh]; exact hb))]
      exact h b (List.mem_cons_of_mem a hb)

theorem removePhase_known_mem (ents : List (String × CamMeta)) (kn : List String)
    (tr : List String) (hk : kn.Nodup) (x : String) :
    x ∈ (removePhase ents kn tr).2.1 ↔ x ∈ kn ∧ x ∉ tr := by
  induction tr generalizing ents kn with
  | nil => simp [removePhase]
  | cons a as ih =>
    simp only [removePhase]
    cases hget : alGet ents a with
    | some m =>
      show x ∈ (removePhase (alRemove ents a) (kn.erase a) as).2.1 ↔ _
      rw [ih (alRemove ents a) (kn.erase a) (hk.erase a)]
      rw [hk.mem_erase_iff]
      simp only [List.mem_cons, not_or]
      constructor
      · rintro ⟨⟨hxa, hxkn⟩, hxas⟩
        exact ⟨hxkn, hxa, hxas⟩
      · rintro ⟨hxkn, hxa, hxas⟩
        exact ⟨⟨hxa, hxkn⟩, hxas⟩
    | none =>
      rw [ih ents (kn.erase a) (hk.erase a)]
      rw [hk.mem_erase_iff]
      simp only [List.mem_cons, not_or]
      constructor
      · rintro ⟨⟨hxa, hxkn⟩, hxas⟩
        exact ⟨hxkn, hxa, hxas⟩
      · rintro ⟨hxkn, hxa, hxas⟩
        exact ⟨⟨hxa, hxkn⟩, hxas⟩

theorem removePhase_entities_preserved (ents : List (String × CamMeta)) (kn : List String)
    (tr : List String) {a : String} (ha : a ∉ tr) :
    alGet (removePhase ents kn tr).1 a = alGet ents a := by
  induction tr generalizing ents kn with
  | nil => rfl
  | cons b bs ih =>
    have hab : b ≠ a := fun hh => ha (hh ▸ List.mem_cons_self b bs)
    have ha' : a ∉ bs := fun hh => ha (List.mem_cons_of_mem b hh)
    simp only [removePhase]
    cases hget : alGet ents b with
    | some m =>
      show alGet (removePhase (alRemove ents b) (kn.erase b) bs).1 a = alGet ents a
      rw [ih (alRemove ents b) (kn.erase b) ha', alGet_alRemove_ne _ hab]
    | none => exact ih ents (kn.erase b) ha'

theorem alGet_isNone_iff {α : Type} {m : List (String × α)} {k : String} :
    (alGet m k).isNone = true ↔ k ∉ m.map Prod.fst := by
  rw [← alGet_isSome_iff]
  cases alGet m k <;> simp

/-- Claim C9 (confirmed): one reconciliation pass of `_on_coordinator_update`
(with duplicate-free `wants` keys and `known` set, and every known alias backed
by a stored entity) creates exactly the wanted-but-unknown keys, destroys
exactly the known-but-unwanted keys, leaves every key in both sets untouched —
its stored entity (hence its creation-time metadata such as the title) is
preserved, never recreated — and afterwards the known set is exactly the
wanted key set. -/
theorem C9_reconciler_exact_diff
    (wants : List (String × CamMeta)) (s : CamSt)
    (hk : s.known.Nodup) (hw : (wants.map Prod.fst).Nodup)
    (hsync : ∀ a ∈ s.known, (alGet s.entities a).isSome) :
    (onCoordinatorUpdate wants s).2.1
        = (wants.map Prod.fst).filter (fun a => decide (a ∉ s.known))
    ∧ (onCoordinatorUpdate wants s).2.2
        = s.known.filter (fun a => (alGet wants a).isNone)
    ∧ (∀ a ∈ s.known, a ∈ wants.map Prod.fst →
        a ∉ (onCoordinatorUpdate wants s).2.1
        ∧ a ∉ (onCoordinatorUpdate wants s).2.2
        ∧ alGet (onCoordinatorUpdate wants s).1.entities a = alGet s.entities a)
    ∧ (∀ x, x ∈ (onCoordinatorUpdate wants s).1.known ↔ x ∈ wants.map Prod.fst) := by
  have hcr := addPhase_created s.entities s.known wants hw
  have hkn1 := addPhase_known s.entities s.known wants
  have hnd1 := addPhase_known_nodup s.entities s.known wants hk hw
  have hsync1 := addPhase_sync s.entities s.known wants hsync
  have htreq : (addPhase s.entities s.known wants).2.1.filter
      (fun al => (alGet wants al).isNone)
      = s.known.filter (fun a => (alGet wants a).isNone) := by
    rw [hkn1, List.filter_append, hcr]
    have hnil : ((wants.map Prod.fst).filter (fun a => decide (a ∉ s.known))).filter
        (fun al => (alGet wants al).isNone) = [] := by
      rw [List.filter_eq_nil_iff]
      intro a ha
      have hmem : a ∈ wants.map Prod.fst := List.mem_of_mem_filter ha
      rw [alGet_isNone_iff]
      intro hcon
      exact hcon hmem
    rw [hnil, List.append_nil]
  have htrnd : ((addPhase s.entities s.known wants).2.1.filter
      (fun al => (alGet wants al).isNone)).Nodup := hnd1.filter _
  have htrsync : ∀ a ∈ (addPhase s.entities s.known wants).2.1.filter
      (fun al => (alGet wants al).isNone),
      (alGet (addPhase s.entities s.known wants).1 a).isSome :=
    fun a ha => hsync1 a (List.mem_of_mem_filter ha)
  have hds := removePhase_destroyed (addPhase s.entities s.known wants).1
    (addPhase s.entities s.known wants).2.1
    ((addPhase s.entities s.known wants).2.1.filter (fun al => (alGet wants al).isNone))
    htrnd htrsync
  have hkn2 := removePhase_known_mem (addPhase s.entities s.known wants).1
    (addPhase s.entities s.known wants).2.1
    ((addPhase s.entities s.known wants).2.1.filter (fun al => (alGet wants al).isNone))
    hnd1
  refine ⟨hcr, ?_, ?_, ?_⟩
  · show (removePhase (addPhase s.entities s.known wants).1
        (addPhase s.entities s.known wants).2.1
        ((addPhase s.entities s.known wants).2.1.filter
          (fun al => (alGet wants al).isNone))).2.2 = _
    rw [hds]
    exact htreq
  · intro a haknown hawant
    have hnone : ¬ (alGet wants a).isNone = true := by
      rw [alGet_isNone_iff]
      intro hcon
      exact hcon hawant
    refine ⟨?_, ?_, ?_⟩
    · show a ∉ (addPhase s.entities s.known wants).2.2
      rw [hcr]
      intro hmem
      have := List.of_mem_filter hmem
      simp only [decide_eq_true_eq] at this
      exact this haknown
    · show a ∉ (removePhase (addPhase s.entities s.known wants).1
          (addPhase s.entities s.known wants).2.1
          ((addPhase s.entities s.known wants).2.1.filter
            (fun al => (alGet wants al).isNone))).2.2
      rw [hds, htreq]
      intro hmem
      exact hnone (List.mem_filter.mp hmem).2
    · show alGet (removePhase (addPhase s.entities s.known wants).1
          (addPhase s.entities s.known wants).2.1
          ((addPhase s.entities s.known wants).2.1.filter
            (fun al => (alGet wants al).isNone))).1 a = alGet s.entities a
      have hnotr : a ∉ (addPhase s.entities s.known wants).2.1.filter
          (fun al => (alGet wants al).isNone) := by
        rw [htreq]
        intro hmem
        exact hnone (List.mem_filter.mp hmem).2
      rw [removePhase_entities_preserved _ _ _ hnotr]
      exact addPhase_entities_preserved s.entities s.known wants haknown
  · intro x
    show x ∈ (removePhase (addPhase s.entities s.known wants).1
        (addPhase s.entities s.known wants).2.1
        ((addPhase s.entities s.known wants).2.1.filter
          (fun al => (alGet wants al).isNone))).2.1 ↔ _
    rw [hkn2 x, htreq]
    constructor
    · rintro ⟨hx1, hx2⟩
      by_contra hnw
      have hxnone : (alGet wants x).isNone = true := alGet_isNone_iff.mpr hnw
      rw [hkn1] at hx1
      rcases List.mem_append.mp hx1 with hx1 | hx1
      · exact hx2 (List.mem_filter.mpr ⟨hx1, hxnone⟩)
      · rw [hcr] at hx1
        exact hnw (List.mem_of_mem_filter hx1)
    · intro hwx
      have hxsome : ¬ (alGet wants x).isNone = true := by
        rw [alGet_isNone_iff]
        intro hcon
        exact hcon hwx
      constructor
      · rw [hkn1]
        by_cases hxk : x ∈ s.known
        · exact List.mem_append_left _ hxk
        · refine List.mem_append_right _ ?_
          rw [hcr]
          exact List.mem_filter.mpr ⟨hwx, by simp [hxk]⟩
      · intro hmem
        exact hxsome (List.mem_filter.mp hmem).2

/-- Claim C9 witness: `wants = {A, B}` versus `known = {B, C}` — exactly `A` is
created, exactly `C` is destroyed, `B` keeps its stored entity (old title). -/
theorem C9_witness :
    sW.known.Nodup
    ∧ (wantsW.map Prod.fst).Nodup
    ∧ (∀ a ∈ sW.known, (alGet sW.entities a).isSome)
    ∧ ((onCoordinatorUpdate wantsW sW).2.1
          = (wantsW.map Prod.fst).filter (fun a => decide (a ∉ sW.known))
      ∧ (onCoordinatorUpdate wantsW sW).2.2
          = sW.known.filter (fun a => (alGet wantsW a).isNone)
      ∧ (∀ a ∈ sW.known, a ∈ wantsW.map Prod.fst →
          a ∉ (onCoordinatorUpdate wantsW sW).2.1
          ∧ a ∉ (onCoordinatorUpdate wantsW sW).2.2
          ∧ alGet (onCoordinatorUpdate wantsW sW).1.entities a = alGet sW.entities a)
      ∧ (∀ x, x ∈ (onCoordinatorUpdate wantsW sW).1.known ↔ x ∈ wantsW.map Prod.fst)) :=
  ⟨by decide, by decide, by decide,
   C9_reconciler_exact_diff wantsW sW (by decide) (by decide) (by decide)⟩
